import Mathlib

/-!
Verification of the tabular architecture comparison engine
(`compare_architectures_tabular.py`).

The Python module is embedded shallowly:

* Python `str` operations used by the source (`strip`, `split(". ")`,
  `lower`, substring test `in`, slicing `[:n]`, `len`, `endswith`,
  `"sep".join`) are implemented as structurally recursive functions over
  `String.data`, so that every definition is executable by the kernel.
* Python `dict` is an insertion-ordered association list
  `List (String × α)`; assignment is `dinsert` (overwrite in place),
  lookup with a default is `dlookup`/`Option.getD`, and `==` on dicts is
  `dictBEqWith` (key sets must coincide and values must be equal),
  matching Python's order-insensitive dict equality.
* Python `set` has no iteration order guaranteed across interpreter runs
  (string hashing is randomized); wherever the source iterates over a set
  to build output text, the embedding either takes the enumeration order
  as an explicit parameter or uses the canonical first-appearance order.
* Opaque JSON payloads that the source only ever compares for equality or
  truthiness (attribute values, constraint expressions, units, sort
  specifications, select-attribute lists) are modeled as `String` /
  `List String`; fields read with `dict.get(k)` (no default) are
  `Option`-valued.
-/

namespace ArchCompare

/-! ### Python string primitives -/

/-- Byte-faithful model of Python `len` on `str` (number of characters). -/
def pyLen (s : String) : Nat := s.data.length

/-- Model of Python `s[:n]` for a nonnegative `n`. -/
def pyTake (n : Nat) (s : String) : String := ⟨s.data.take n⟩

def isPySpace (c : Char) : Bool := c.isWhitespace

/-- Model of Python `str.strip()`: drop leading and trailing whitespace. -/
def pyStrip (s : String) : String :=
  ⟨((s.data.dropWhile isPySpace).reverse.dropWhile isPySpace).reverse⟩

/-- Model of Python `str.lower()` (ASCII letters; the source's key phrases
and fixture texts are ASCII). -/
def pyLower (s : String) : String := ⟨s.data.map Char.toLower⟩

/-- Model of Python `needle in hay` (contiguous substring test). -/
def containsSub (needle : List Char) : List Char → Bool
  | [] => needle.isEmpty
  | c :: rest => needle.isPrefixOf (c :: rest) || containsSub needle rest

def pyContains (needle hay : String) : Bool := containsSub needle.data hay.data

/-- Model of Python `str.endswith(suffix)`. -/
def pyEndsWith (suffix s : String) : Bool := suffix.data.isSuffixOf s.data

/-- Fuel-driven worker for `pySplit`; the fuel is the length of the
remaining input, and every step consumes at least one character. -/
def pySplitGo (sep : List Char) : Nat → List Char → List Char → List (List Char)
  | _, [], acc => [acc.reverse]
  | 0, l, acc => [acc.reverse ++ l]
  | fuel + 1, c :: rest, acc =>
    if sep.isPrefixOf (c :: rest) then
      acc.reverse :: pySplitGo sep fuel (List.drop (sep.length - 1) rest) []
    else
      pySplitGo sep fuel rest (c :: acc)

/-- Model of Python `s.split(sep)` for a non-empty separator: split on
every non-overlapping occurrence, keeping empty parts. -/
def pySplit (sep s : String) : List String :=
  if sep.data.isEmpty then [s]
  else (pySplitGo sep.data s.data.length s.data []).map (fun l => ⟨l⟩)

/-- Model of Python `sep.join(parts)`. -/
def pyJoin (sep : String) : List String → String
  | [] => ""
  | a :: rest => rest.foldl (fun acc x => acc ++ sep ++ x) a

/-- Model of Python `sorted` on a collection of strings (ascending
lexicographic order on code points). -/
def sortStrings (l : List String) : List String :=
  List.insertionSort (· ≤ ·) l

/-! ### Python dict primitives -/

/-- First-match lookup in an insertion-ordered association list
(Python `d.get(k)`). -/
def dlookup {α : Type} (d : List (String × α)) (k : String) : Option α :=
  match d with
  | [] => none
  | (k', v) :: rest => if k' = k then some v else dlookup rest k

/-- Python `d[k] = v`: overwrite in place if the key exists, else append. -/
def dinsert {α : Type} (d : List (String × α)) (k : String) (v : α) :
    List (String × α) :=
  match d with
  | [] => [(k, v)]
  | (k', v') :: rest =>
    if k' = k then (k', v) :: rest else (k', v') :: dinsert rest k v

/-- The keys of a dict, in insertion order. -/
def dkeys {α : Type} (d : List (String × α)) : List String := d.map Prod.fst

/-- Python dict equality relative to a value-equality test: the two key
sets coincide and the values at every common key are equal. -/
def dictBEqWith {α : Type} (veq : α → α → Bool)
    (d1 d2 : List (String × α)) : Bool :=
  (dkeys d1).all (fun k =>
    match dlookup d1 k, dlookup d2 k with
    | some a, some b => veq a b
    | _, _ => false) &&
  (dkeys d2).all (fun k => (dlookup d1 k).isSome)

/-- Equality test on `Option` relative to a value-equality test
(Python `d.get(k)` results compared with `!=`). -/
def optBEqWith {α : Type} (veq : α → α → Bool) : Option α → Option α → Bool
  | some a, some b => veq a b
  | none, none => true
  | _, _ => false

/-- Membership test used for Python `x in someSet` over a key list. -/
def memB (k : String) (l : List String) : Bool := l.contains k

/-- Python `sorted(set difference)`: the keys of `l1` that are not in
`l2`, deduplicated and sorted. -/
def sortedSetDiff (l1 l2 : List String) : List String :=
  sortStrings ((l1.filter (fun k => !(memB k l2))).dedup)

/-- Python `set(l1) == set(l2)` for key lists. -/
def setEqB (l1 l2 : List String) : Bool :=
  l1.all (fun k => memB k l2) && l2.all (fun k => memB k l1)

/-! ### Data model (raw documents, §3 of the source's docstring) -/

/-- One element of a component's `attributes_search_space`.  The payload
fields are read with `attr.get(...)` (no default), hence `Option`. -/
structure RawAttribute where
  attribute_codename : Option String
  attribute_values : Option String
  attribute_constraint_expr : Option String
  attribute_unit : Option String
deriving DecidableEq, Repr

/-- One element of `service_components_search_spaces`. -/
structure RawServiceComponent where
  service_component_codename : Option String
  attributes_search_space : List RawAttribute
  number_of_instances : Option Int
  service_component_sort : List String
deriving DecidableEq, Repr

/-- The `service_search_space` sub-document of a raw component. -/
structure RawServiceSpace where
  service_codename : Option String
  service_select_attributes : List String
  service_components_search_spaces : List RawServiceComponent
deriving DecidableEq, Repr

/-- Value of `component.get("service_search_space", {})` on a missing key:
an empty dict, every field of which reads as absent. -/
def emptyServiceSpace : RawServiceSpace := ⟨none, [], []⟩

/-- One element of an architecture's `components_search_space`. -/
structure RawComponent where
  component_id : Option String
  service_search_space : Option RawServiceSpace
deriving DecidableEq, Repr

/-- One element of the input file's `architectures` list.  The orchestrator
indexes `arch["architecture_id"]` unconditionally, so the field is
required. -/
structure ArchDoc where
  architecture_id : String
  components_search_space : List RawComponent
deriving DecidableEq, Repr

/-- A parsed architecture input file. -/
structure DataSet where
  architectures : List ArchDoc
deriving DecidableEq, Repr

/-! ### Normalized structures (`_extract_architecture_structure`) -/

/-- The per-component record stored by the normalizer. -/
structure ComponentEntry where
  component_id : String
  service_component_codename : String
  attributes_search_space : List RawAttribute
  number_of_instances : Int
  service_component_sort : List String
deriving DecidableEq, Repr

/-- The per-service record stored by the normalizer. -/
structure ServiceEntry where
  service_codename : String
  select_attributes : List String
  components : List (String × ComponentEntry)
deriving DecidableEq, Repr

/-- The normalized architecture (`{"services": {...}}`). -/
structure ArchStructure where
  services : List (String × ServiceEntry)
deriving DecidableEq, Repr

/-- The service codename a raw component resolves to
(`service_space.get("service_codename", "Unknown")`). -/
def svcName (c : RawComponent) : String :=
  ((c.service_search_space.getD emptyServiceSpace).service_codename).getD "Unknown"

/-- The composite component key `f"{component_id}_{comp_name}"`. -/
def fullCompName (cid : String) (sc : RawServiceComponent) : String :=
  cid ++ "_" ++ (sc.service_component_codename.getD "Unknown")

/-- The `ComponentEntry` built for one service-component search space. -/
def compEntryOf (cid : String) (sc : RawServiceComponent) : ComponentEntry :=
  { component_id := cid
    service_component_codename := sc.service_component_codename.getD "Unknown"
    attributes_search_space := sc.attributes_search_space
    number_of_instances := sc.number_of_instances.getD 1
    service_component_sort := sc.service_component_sort }

/-- Processing of one raw component by `_extract_architecture_structure`:
create the service entry on first sight (recording
`service_select_attributes` then and only then), then store/overwrite one
`ComponentEntry` per nested search space.  The Python loop mutates only
the entry at `svcName c`, which is modeled by folding that entry's
component dict and re-inserting it once. -/
def extractStep (services : List (String × ServiceEntry)) (c : RawComponent) :
    List (String × ServiceEntry) :=
  let cid := c.component_id.getD ""
  let sp := c.service_search_space.getD emptyServiceSpace
  let svc := sp.service_codename.getD "Unknown"
  let entry :=
    match dlookup services svc with
    | some e => e
    | none =>
      { service_codename := svc
        select_attributes := sp.service_select_attributes
        components := [] }
  let comps := sp.service_components_search_spaces.foldl
    (fun cs sc => dinsert cs (fullCompName cid sc) (compEntryOf cid sc))
    entry.components
  dinsert services svc { entry with components := comps }

/-- `_extract_architecture_structure`: a falsy (absent) document yields the
empty structure; otherwise the component list is folded in document
order. -/
def extractArchitectureStructure (archData : Option ArchDoc) : ArchStructure :=
  match archData with
  | none => { services := [] }
  | some arch =>
    { services := arch.components_search_space.foldl extractStep [] }

/-! ### Level differencers -/

/-- The verdict-plus-text record each `_compare_*_level` returns. -/
structure CompareResult where
  same : Bool
  differences : String
deriving DecidableEq, Repr

/-- Shared tail of the four differencers:
`"; ".join(differences) if differences else "No differences"`. -/
def joinDifferences (differences : List String) : String :=
  if differences.isEmpty then "No differences" else pyJoin "; " differences

/-- The `"Baseline only: ..."` / `"Enhanced only: ..."` parts emitted by
the services- and components-level differencers. -/
def onlyParts (baselineOnly enhancedOnly : List String) : List String :=
  (if !baselineOnly.isEmpty then
    ["Baseline only: " ++ pyJoin ", " baselineOnly] else []) ++
  (if !enhancedOnly.isEmpty then
    ["Enhanced only: " ++ pyJoin ", " enhancedOnly] else [])

/-- `_compare_services_level`. -/
def compareServicesLevel (b e : ArchStructure) : CompareResult :=
  let bk := dkeys b.services
  let ek := dkeys e.services
  let same := setEqB bk ek
  let differences :=
    if same then [] else onlyParts (sortedSetDiff bk ek) (sortedSetDiff ek bk)
  { same := same, differences := joinDifferences differences }

/-- The flattening `{f"{service}::{comp}": comp_data}` shared by the
components / attributes / configurations levels. -/
def flattenComponents (st : ArchStructure) : List (String × ComponentEntry) :=
  st.services.foldl
    (fun acc kv =>
      kv.2.components.foldl
        (fun acc2 ckv => dinsert acc2 (kv.1 ++ "::" ++ ckv.1) ckv.2)
        acc)
    []

/-- `_compare_components_level`. -/
def compareComponentsLevel (b e : ArchStructure) : CompareResult :=
  let bk := dkeys (flattenComponents b)
  let ek := dkeys (flattenComponents e)
  let same := setEqB bk ek
  let differences :=
    if same then [] else onlyParts (sortedSetDiff bk ek) (sortedSetDiff ek bk)
  { same := same, differences := joinDifferences differences }

/-- The existence marker `{"codename": attr_name, "exists": True}` stored
by `_get_all_attributes`. -/
structure AttrExistence where
  codename : String
  existsMark : Bool
deriving DecidableEq, Repr

/-- `_get_all_attributes`: for every `"{service}::{component}"` key, the
map from attribute codename to its existence marker.  Every component
key is first reset to an empty inner dict, exactly as
`attributes[comp_key] = {}` does. -/
def getAllAttributes (st : ArchStructure) :
    List (String × List (String × AttrExistence)) :=
  st.services.foldl
    (fun acc kv =>
      kv.2.components.foldl
        (fun acc2 ckv =>
          let inner := ckv.2.attributes_search_space.foldl
            (fun m a =>
              let an := a.attribute_codename.getD "unknown"
              dinsert m an { codename := an, existsMark := true })
            []
          dinsert acc2 (kv.1 ++ "::" ++ ckv.1) inner)
        acc)
    []

def attrExistBEq (a b : AttrExistence) : Bool := a == b

/-- The per-component entry the attributes-level differencer appends for
one component key (`None` when nothing is appended for that key). -/
def attributesPieceAt
    (battrs eattrs : List (String × List (String × AttrExistence)))
    (ck : String) : Option String :=
  let bAttrs := (dlookup battrs ck).getD []
  let eAttrs := (dlookup eattrs ck).getD []
  if dictBEqWith attrExistBEq bAttrs eAttrs then none
  else
    let bn := dkeys bAttrs
    let en := dkeys eAttrs
    if setEqB bn en then none
    else
      let bOnly := sortedSetDiff bn en
      let eOnly := sortedSetDiff en bn
      if bOnly.isEmpty && eOnly.isEmpty then none
      else
        let compDiffs :=
          (if !bOnly.isEmpty then
            ["baseline only: " ++ pyJoin ", " bOnly] else []) ++
          (if !eOnly.isEmpty then
            ["enhanced only: " ++ pyJoin ", " eOnly] else [])
        some (ck ++ " (" ++ pyJoin "; " compDiffs ++ ")")

/-- The list of per-component difference entries built by
`_compare_attributes_level`; `order` is the enumeration order of the set
`set(baseline_attrs) | set(enhanced_attrs)`, which Python does not fix
across runs. -/
def attributesDifferenceEntries (order : List String)
    (b e : ArchStructure) : List String :=
  let battrs := getAllAttributes b
  let eattrs := getAllAttributes e
  if dictBEqWith (dictBEqWith attrExistBEq) battrs eattrs then []
  else order.filterMap (attributesPieceAt battrs eattrs)

/-- `_compare_attributes_level`, with the set-enumeration order as an
explicit parameter. -/
def compareAttributesLevelOrd (order : List String) (b e : ArchStructure) :
    CompareResult :=
  { same := dictBEqWith (dictBEqWith attrExistBEq)
      (getAllAttributes b) (getAllAttributes e)
    differences := joinDifferences (attributesDifferenceEntries order b e) }

/-- The canonical (first-appearance) enumeration of
`set(baseline keys) | set(enhanced keys)`. -/
def canonicalUnion (bk ek : List String) : List String := (bk ++ ek).dedup

/-- `_compare_attributes_level` with the canonical enumeration order. -/
def compareAttributesLevel (b e : ArchStructure) : CompareResult :=
  compareAttributesLevelOrd
    (canonicalUnion (dkeys (getAllAttributes b)) (dkeys (getAllAttributes e)))
    b e

/-- The `{values, constraint, unit}` record stored per attribute by
`_get_all_configurations`. -/
structure AttrConfig where
  values : Option String
  constraint : Option String
  unit : Option String
deriving DecidableEq, Repr

/-- The `{instances, sort, attributes}` record stored per component key by
`_get_all_configurations`. -/
structure ConfigEntry where
  instances : Int
  sortSpec : List String
  attributes : List (String × AttrConfig)
deriving DecidableEq, Repr

/-- Python dict equality on `ConfigEntry` (the `attributes` sub-dict is
compared as a dict, not as an ordered list). -/
def configEntryBEq (a b : ConfigEntry) : Bool :=
  a.instances == b.instances && a.sortSpec == b.sortSpec &&
    dictBEqWith (fun x y => x == y) a.attributes b.attributes

/-- `_get_all_configurations`. -/
def getAllConfigurations (st : ArchStructure) : List (String × ConfigEntry) :=
  st.services.foldl
    (fun acc kv =>
      kv.2.components.foldl
        (fun acc2 ckv =>
          let attrs := ckv.2.attributes_search_space.foldl
            (fun m a =>
              let an := a.attribute_codename.getD "unknown"
              dinsert m an
                { values := a.attribute_values
                  constraint := a.attribute_constraint_expr
                  unit := a.attribute_unit })
            []
          dinsert acc2 (kv.1 ++ "::" ++ ckv.1)
            { instances := ckv.2.number_of_instances
              sortSpec := ckv.2.service_component_sort
              attributes := attrs })
        acc)
    []

/-- Rendering of `f"... {x} vs {y}"` for values read with `.get`, which
yields Python `None` on a missing component key. -/
def showOptInt : Option Int → String
  | none => "None"
  | some n => toString n

/-- The per-attribute sub-entry (`"{attr_name}: values, constraint, unit"`)
emitted by the configurations-level differencer. -/
def attrConfigDiff (bAttr eAttr : Option AttrConfig) (an : String) :
    Option String :=
  if bAttr == eAttr then none
  else
    let ds :=
      (if (bAttr.bind (·.values)) ≠ (eAttr.bind (·.values)) then
        ["values"] else []) ++
      (if (bAttr.bind (·.constraint)) ≠ (eAttr.bind (·.constraint)) then
        ["constraint"] else []) ++
      (if (bAttr.bind (·.unit)) ≠ (eAttr.bind (·.unit)) then
        ["unit"] else [])
    if ds.isEmpty then none else some (an ++ ": " ++ pyJoin ", " ds)

/-- The per-component entry appended by `_compare_configurations_level`
for one component key.  Missing keys read as Python `None`/`{}` through
`.get`, exactly as in the source.  `attrNamesOrd` is the enumeration
order of the inner set
`set(baseline_attr_configs) | set(enhanced_attr_configs)`, which Python
does not fix across runs. -/
def configurationsPieceAtOrd
    (attrNamesOrd : List (String × AttrConfig) → List (String × AttrConfig) →
      List String)
    (bconfigs econfigs : List (String × ConfigEntry))
    (ck : String) : Option String :=
  let bo := dlookup bconfigs ck
  let eo := dlookup econfigs ck
  if optBEqWith configEntryBEq bo eo then none
  else
    let instDiffs :=
      if (bo.map (·.instances)) ≠ (eo.map (·.instances)) then
        ["instances: " ++ showOptInt (bo.map (·.instances)) ++ " vs " ++
          showOptInt (eo.map (·.instances))]
      else []
    let sortDiffs :=
      if (bo.map (·.sortSpec)) ≠ (eo.map (·.sortSpec)) then
        ["sort configuration differs"]
      else []
    let bAttrs := (bo.map (·.attributes)).getD []
    let eAttrs := (eo.map (·.attributes)).getD []
    let attrDiffs := (attrNamesOrd bAttrs eAttrs).filterMap
      (fun an => attrConfigDiff (dlookup bAttrs an) (dlookup eAttrs an) an)
    let compDiffs := instDiffs ++ sortDiffs ++ attrDiffs
    if compDiffs.isEmpty then none
    else some (ck ++ " (" ++ pyJoin "; " compDiffs ++ ")")

/-- `configurationsPieceAtOrd` at the canonical (first-appearance) inner
enumeration order: one fixed run. -/
def configurationsPieceAt (bconfigs econfigs : List (String × ConfigEntry))
    (ck : String) : Option String :=
  configurationsPieceAtOrd (fun ba ea => canonicalUnion (dkeys ba) (dkeys ea))
    bconfigs econfigs ck

/-- `_compare_configurations_level`, with both set-enumeration orders the
source leaves to Python's set iteration as explicit parameters:
`keysOrd` enumerates the outer component-key union, `attrNamesOrd` the
per-component attribute-name union. -/
def compareConfigurationsLevelOrd (keysOrd : List String)
    (attrNamesOrd : List (String × AttrConfig) → List (String × AttrConfig) →
      List String)
    (b e : ArchStructure) : CompareResult :=
  let bconfigs := getAllConfigurations b
  let econfigs := getAllConfigurations e
  let same := dictBEqWith configEntryBEq bconfigs econfigs
  let differences :=
    if same then []
    else keysOrd.filterMap (configurationsPieceAtOrd attrNamesOrd bconfigs econfigs)
  { same := same, differences := joinDifferences differences }

/-- `_compare_configurations_level` at the canonical enumeration orders:
one fixed run. -/
def compareConfigurationsLevel (b e : ArchStructure) : CompareResult :=
  compareConfigurationsLevelOrd
    (canonicalUnion (dkeys (getAllConfigurations b))
      (dkeys (getAllConfigurations e)))
    (fun ba ea => canonicalUnion (dkeys ba) (dkeys ea)) b e

/-! ### Rationale extractor (`_extract_key_insight`) -/

/-- The fixed ordered list of decision-indicating phrases. -/
def keyPhrases : List String :=
  ["because", "due to", "in order to", "to ensure", "chosen to",
   "selected to", "prioritized", "optimized for", "designed for",
   "configured for", "focused on", "enables", "allows", "provides",
   "ensures", "guarantees", "supports"]

/-- `any(phrase in sentence.lower() for phrase in key_phrases)`. -/
def matchesKeyPhrase (sentence : String) : Bool :=
  keyPhrases.any (fun p => pyContains p (pyLower sentence))

/-- `if sentence and not sentence.endswith("."): sentence += "."`. -/
def withPeriod (sentence : String) : String :=
  if sentence ≠ "" && !pyEndsWith "." sentence then sentence ++ "." else sentence

/-- `s[:150] + ("..." if len(s) > 150 else "")`. -/
def truncate150 (s : String) : String :=
  pyTake 150 s ++ (if 150 < pyLen s then "..." else "")

/-- `_extract_key_insight`.  The `context` argument is accepted exactly as
in the source, where it is never read. -/
def extractKeyInsight (text : String) (context : String) : String :=
  if text = "" then ""
  else
    let t := pyStrip text
    let stripped := (pySplit ". " t).map pyStrip
    let keySentences := stripped.filterMap
      (fun s => if matchesKeyPhrase s then some (withPeriod s) else none)
    match keySentences with
    | k :: _ => truncate150 k
    | [] =>
      match stripped.find? (fun s => 30 < pyLen s) with
      | some s => truncate150 s
      | none => truncate150 t

/-! ### Reasoning records and `_get_reasoning_description` -/

/-- One element of `reasoning_objects`.  The free-text fields are read
with `.get(field, "")`, so a missing field and an empty field are
indistinguishable downstream; both are modeled as `""`. -/
structure ReasoningRec where
  service_codename : Option String
  attribute_selection_rationale : String
  critical_attributes_reasoning : String
  alternatives_considered : List String
  service_understanding : String
deriving DecidableEq, Repr

/-- A parsed reasoning input file. -/
structure ReasoningDataSet where
  reasoning_objects : List ReasoningRec
deriving DecidableEq, Repr

/-- `_create_reasoning_lookup`: index the reasoning objects by truthy
`service_codename`. -/
def createReasoningLookup (rd : ReasoningDataSet) :
    List (String × ReasoningRec) :=
  rd.reasoning_objects.foldl
    (fun lk r =>
      match r.service_codename with
      | some s => if s ≠ "" then dinsert lk s r else lk
      | none => lk)
    []

/-- `lookup.get(service_name, {}).get(field, "")`. -/
def rfield (o : Option ReasoningRec) (f : ReasoningRec → String) : String :=
  match o with
  | some r => f r
  | none => ""

/-- The Python pattern
`key_insight = self._extract_key_insight(text, context)` followed by
`if key_insight: out.append(prefix + key_insight)`. -/
def insightPieces (pre text ctx : String) : List String :=
  let ki := extractKeyInsight text ctx
  if ki ≠ "" then [pre ++ ki] else []

/-- The description entries `_get_reasoning_description` appends for one
service name (at most two strings).  `bsvc`/`esvc` are the key lists of
the two normalized structures. -/
def svcPieces (blk elk : List (String × ReasoningRec))
    (bsvc esvc : List String) (sn : String) : List String :=
  let br := dlookup blk sn
  let er := dlookup elk sn
  let bAttrR := rfield br (·.attribute_selection_rationale)
  let eAttrR := rfield er (·.attribute_selection_rationale)
  let bCrit := rfield br (·.critical_attributes_reasoning)
  let eCrit := rfield er (·.critical_attributes_reasoning)
  let bAlts := (br.map (·.alternatives_considered)).getD []
  let eAlts := (er.map (·.alternatives_considered)).getD []
  if memB sn bsvc && memB sn esvc then
    let insights :=
      (if bAttrR ≠ eAttrR && eAttrR ≠ "" then
        insightPieces "Attribute selection: " eAttrR "Enhanced reasoning"
       else []) ++
      (if bCrit ≠ eCrit && eCrit ≠ "" then
        insightPieces "Critical attributes: " eCrit "Critical attributes"
       else []) ++
      (if bAlts ≠ eAlts && !eAlts.isEmpty then
        insightPieces "Design choice: " (eAlts.headD "") "Alternative considered"
       else [])
    if insights.isEmpty then [] else [sn ++ ": " ++ pyJoin "; " insights]
  else if memB sn esvc && !memB sn bsvc then
    let eUnd := rfield er (·.service_understanding)
    (if eUnd ≠ "" then
      insightPieces (sn ++ " (Enhanced only): ") eUnd "Service purpose"
     else []) ++
    (if eAttrR ≠ "" then
      insightPieces (sn ++ " selection reasoning: ") eAttrR "Selection rationale"
     else [])
  else if memB sn bsvc && !memB sn esvc then
    let bUnd := rfield br (·.service_understanding)
    (if bUnd ≠ "" then
      insightPieces (sn ++ " (Baseline only): ") bUnd "Service purpose"
     else [])
  else []

/-- The fallback entry built for one common service when no rationale
difference was found (`attr_rationale` first, else `critical_attrs`). -/
def fallbackPiece (blk elk : List (String × ReasoningRec)) (sn : String) :
    List String :=
  let r :=
    match dlookup elk sn with
    | some x => some x
    | none => dlookup blk sn
  let attrR := rfield r (·.attribute_selection_rationale)
  let critR := rfield r (·.critical_attributes_reasoning)
  if attrR ≠ "" then
    insightPieces (sn ++ ": ") attrR "Configuration rationale"
  else if critR ≠ "" then
    insightPieces (sn ++ ": ") critR "Critical reasoning"
  else []

/-- `_get_reasoning_description`, with the set-enumeration orders the
source leaves to Python's set iteration as explicit parameters:
`svcOrd` enumerates `all_services = baseline | enhanced`, and `commonOrd`
enumerates `common_services = baseline & enhanced`, of which the fallback
keeps the first two (`list(common_services)[:2]`). -/
def getReasoningDescriptionOrd
    (svcOrd commonOrd : List String → List String → List String)
    (blk elk : List (String × ReasoningRec))
    (b e : ArchStructure) : String :=
  let bsvc := dkeys b.services
  let esvc := dkeys e.services
  let allSvc := svcOrd bsvc esvc
  let descriptions := (allSvc.map (svcPieces blk elk bsvc esvc)).flatten
  let descriptions :=
    if descriptions.isEmpty then
      let common := (commonOrd bsvc esvc).take 2
      (common.map (fallbackPiece blk elk)).flatten
    else descriptions
  if descriptions.isEmpty then "No specific reasoning insights available"
  else pyJoin "; " descriptions

/-- `_get_reasoning_description` at the canonical enumeration orders: one
fixed run. -/
def getReasoningDescription (blk elk : List (String × ReasoningRec))
    (b e : ArchStructure) : String :=
  getReasoningDescriptionOrd
    (fun bs es => canonicalUnion bs es)
    (fun bs es => (bs.filter (fun k => memB k es)).dedup) blk elk b e

/-! ### Orchestrator -/

/-- One row of the flat comparison table. -/
structure TabularComparisonRow where
  architecture_id : String
  services_same : Nat
  components_same : Nat
  attributes_same : Nat
  configurations_same : Nat
  services_differences : String
  components_differences : String
  attributes_differences : String
  configurations_differences : String
  reasoning_description : String
deriving DecidableEq, Repr

/-- The row `_create_comparison_row` returns when the identifier is absent
from the baseline document set. -/
def enhancedOnlyRow (archId : String) : TabularComparisonRow :=
  { architecture_id := archId
    services_same := 0, components_same := 0
    attributes_same := 0, configurations_same := 0
    services_differences := "Architecture only in enhanced"
    components_differences := "Architecture only in enhanced"
    attributes_differences := "Architecture only in enhanced"
    configurations_differences := "Architecture only in enhanced"
    reasoning_description := "Architecture exists only in enhanced dataset" }

/-- The row `_create_comparison_row` returns when the identifier is absent
from the enhanced document set. -/
def baselineOnlyRow (archId : String) : TabularComparisonRow :=
  { architecture_id := archId
    services_same := 0, components_same := 0
    attributes_same := 0, configurations_same := 0
    services_differences := "Architecture only in baseline"
    components_differences := "Architecture only in baseline"
    attributes_differences := "Architecture only in baseline"
    configurations_differences := "Architecture only in baseline"
    reasoning_description := "Architecture exists only in baseline dataset" }

def boolToBit (b : Bool) : Nat := if b then 1 else 0

/-- One choice of enumeration order for every `set` the source iterates
while building output text.  Python fixes these only within one
interpreter run (string hashing is randomized across runs), so a "run"
of the comparison is modeled as a choice of `SetIterOrders`.  The
services- and components-level texts iterate no set — they only call
`sorted` — and therefore need no entry here. -/
structure SetIterOrders where
  attrKeys : List (String × List (String × AttrExistence)) →
    List (String × List (String × AttrExistence)) → List String
  confKeys : List (String × ConfigEntry) → List (String × ConfigEntry) →
    List String
  confAttrNames : List (String × AttrConfig) → List (String × AttrConfig) →
    List String
  svcNames : List String → List String → List String
  commonServices : List String → List String → List String

/-- The canonical run: every set is enumerated in first-appearance order
of its construction. -/
def canonicalOrders : SetIterOrders :=
  { attrKeys := fun ba ea => canonicalUnion (dkeys ba) (dkeys ea)
    confKeys := fun bc ec => canonicalUnion (dkeys bc) (dkeys ec)
    confAttrNames := fun ba ea => canonicalUnion (dkeys ba) (dkeys ea)
    svcNames := fun bs es => canonicalUnion bs es
    commonServices := fun bs es => (bs.filter (fun k => memB k es)).dedup }

/-- `_create_comparison_row` under one choice of set-enumeration orders:
the missing-architecture shortcut returns a literal row without invoking
any differencer or the rationale extractor; otherwise both sides are
normalized and the four levels plus the reasoning description are
assembled. -/
def createComparisonRowOrd (ords : SetIterOrders)
    (blk elk : List (String × ReasoningRec))
    (archId : String) (baselineArch enhancedArch : Option ArchDoc) :
    TabularComparisonRow :=
  match baselineArch with
  | none => enhancedOnlyRow archId
  | some ba =>
    match enhancedArch with
    | none => baselineOnlyRow archId
    | some ea =>
      let bs := extractArchitectureStructure (some ba)
      let es := extractArchitectureStructure (some ea)
      let services := compareServicesLevel bs es
      let components := compareComponentsLevel bs es
      let attributes := compareAttributesLevelOrd
        (ords.attrKeys (getAllAttributes bs) (getAllAttributes es)) bs es
      let configurations := compareConfigurationsLevelOrd
        (ords.confKeys (getAllConfigurations bs) (getAllConfigurations es))
        ords.confAttrNames bs es
      { architecture_id := archId
        services_same := boolToBit services.same
        components_same := boolToBit components.same
        attributes_same := boolToBit attributes.same
        configurations_same := boolToBit configurations.same
        services_differences := services.differences
        components_differences := components.differences
        attributes_differences := attributes.differences
        configurations_differences := configurations.differences
        reasoning_description := getReasoningDescriptionOrd
          ords.svcNames ords.commonServices blk elk bs es }

/-- `_create_comparison_row` on the canonical run. -/
def createComparisonRow (blk elk : List (String × ReasoningRec))
    (archId : String) (baselineArch enhancedArch : Option ArchDoc) :
    TabularComparisonRow :=
  createComparisonRowOrd canonicalOrders blk elk archId baselineArch enhancedArch

/-- The dict comprehension
`{arch["architecture_id"]: arch for arch in data.get("architectures", [])}`. -/
def buildArchDict (l : List ArchDoc) : List (String × ArchDoc) :=
  l.foldl (fun d a => dinsert d a.architecture_id a) []

/-- `compare_all_architectures_tabular` under one choice of
set-enumeration orders, with the reasoning lookups built once from the
reasoning data sets as in the comparator's constructor. -/
def compareAllArchitecturesTabularOrd (ords : SetIterOrders) (bd ed : DataSet)
    (brd erd : ReasoningDataSet) : List TabularComparisonRow :=
  let ba := buildArchDict bd.architectures
  let ea := buildArchDict ed.architectures
  let blk := createReasoningLookup brd
  let elk := createReasoningLookup erd
  let allArchIds := sortStrings ((dkeys ba ++ dkeys ea).dedup)
  allArchIds.map
    (fun archId => createComparisonRowOrd ords blk elk archId
      (dlookup ba archId) (dlookup ea archId))

/-- `compare_all_architectures_tabular` on the canonical run. -/
def compareAllArchitecturesTabular (bd ed : DataSet)
    (brd erd : ReasoningDataSet) : List TabularComparisonRow :=
  compareAllArchitecturesTabularOrd canonicalOrders bd ed brd erd

/-! ### Specification-side definitions and helper predicates -/

/-- Pointwise lifting of a relation to `Option` (the `Prop` counterpart of
`optBEqWith`). -/
def optPRel {α : Type} (P : α → α → Prop) : Option α → Option α → Prop
  | some a, some b => P a b
  | none, none => True
  | _, _ => False

/-- Modelled from the words of claim C1: the per-component
attribute-existence maps are equal across every component key present in
either side, **where an absent component key behaves as an empty
attribute map**. -/
def attributesAgreeWithEmptyDefault (b e : ArchStructure) : Bool :=
  let battrs := getAllAttributes b
  let eattrs := getAllAttributes e
  (canonicalUnion (dkeys battrs) (dkeys eattrs)).all
    (fun k => dictBEqWith attrExistBEq
      ((dlookup battrs k).getD []) ((dlookup eattrs k).getD []))

/-- Strict deep equality of the two attribute-existence maps: the same
component keys on both sides and, per key, the same attribute-existence
dict (a component key present on only one side makes them differ). -/
def attrExistMapsStrictEq (b e : ArchStructure) : Prop :=
  ∀ k, optPRel (fun i1 i2 => ∀ a, dlookup i1 a = dlookup i2 a)
    (dlookup (getAllAttributes b) k) (dlookup (getAllAttributes e) k)

/-- Decidable form of "every component key carries the same set of
attribute codenames": equal component-key sets and, per component key,
equal attribute-name sets. -/
def attrNamesAgreeB (b e : ArchStructure) : Bool :=
  let battrs := getAllAttributes b
  let eattrs := getAllAttributes e
  setEqB (dkeys battrs) (dkeys eattrs) &&
  (canonicalUnion (dkeys battrs) (dkeys eattrs)).all
    (fun ck => setEqB (dkeys ((dlookup battrs ck).getD []))
      (dkeys ((dlookup eattrs ck).getD [])))

/-- Python-dict equality of two normalized `services` maps, with entries
compared structurally (equal codename, select_attributes and component
entries). -/
def servicesEquivB (s1 s2 : ArchStructure) : Bool :=
  dictBEqWith (fun a b : ServiceEntry => a == b) s1.services s2.services

/-- The service entry `_extract_architecture_structure` creates for a raw
component whose service codename is fresh. -/
def entryOf (c : RawComponent) : ServiceEntry :=
  let cid := c.component_id.getD ""
  let sp := c.service_search_space.getD emptyServiceSpace
  { service_codename := sp.service_codename.getD "Unknown"
    select_attributes := sp.service_select_attributes
    components := sp.service_components_search_spaces.foldl
      (fun cs sc => dinsert cs (fullCompName cid sc) (compEntryOf cid sc)) [] }

/-- All composite component keys a raw document produces, in document
order (used to state the duplicate-composite-key side condition of
claim C2). -/
def allCompositeKeys (d : ArchDoc) : List String :=
  d.components_search_space.foldl
    (fun acc c =>
      acc ++ ((c.service_search_space.getD
        emptyServiceSpace).service_components_search_spaces.map
          (fullCompName (c.component_id.getD ""))))
    []

/-- Modelled from the words of claim C6 (and §4.6 of the spec): pick the
first phrase-bearing sentence (period-appended), else the first sentence
longer than 30 characters, else the stripped text, each truncated to 150
characters with an ellipsis beyond that; empty input yields empty
output. -/
def extractKeyInsightSpec (text : String) : String :=
  if text = "" then ""
  else
    let t := pyStrip text
    let stripped := (pySplit ". " t).map pyStrip
    match stripped.find? matchesKeyPhrase with
    | some s => truncate150 (withPeriod s)
    | none =>
      match stripped.find? (fun s => 30 < pyLen s) with
      | some s => truncate150 s
      | none => truncate150 t

/-- The per-row invariant of claim C7, as a decidable test: every binary
flag is 0 or 1 and every text field is non-empty. -/
def rowOkB (r : TabularComparisonRow) : Bool :=
  (r.services_same == 0 || r.services_same == 1) &&
  (r.components_same == 0 || r.components_same == 1) &&
  (r.attributes_same == 0 || r.attributes_same == 1) &&
  (r.configurations_same == 0 || r.configurations_same == 1) &&
  (r.services_differences != "") &&
  (r.components_differences != "") &&
  (r.attributes_differences != "") &&
  (r.configurations_differences != "") &&
  (r.reasoning_description != "")

/-! ### Concrete fixtures used by counterexamples and witnesses -/

/-- Baseline fixture: one service `S` with one component `c_X` whose
attribute list is empty. -/
def stB : ArchStructure :=
  ⟨[("S", ⟨"S", [], [("c_X", ⟨"c", "X", [], 1, []⟩)]⟩)]⟩

/-- Enhanced fixture: no services at all. -/
def stE : ArchStructure := ⟨[]⟩

/-- A raw document that normalizes to `stB`. -/
def stBDoc : ArchDoc :=
  ⟨"arch", [⟨some "c", some ⟨some "S", [], [⟨some "X", [], some 1, []⟩]⟩⟩]⟩

/-- A raw document that normalizes to `stE`. -/
def stEDoc : ArchDoc := ⟨"arch", []⟩

/-- Two raw components that share service codename `S` but carry different
`service_select_attributes`, and introduce no composite component keys. -/
def c2DocA : ArchDoc :=
  ⟨"arch", [⟨some "a", some ⟨some "S", ["x"], []⟩⟩,
            ⟨some "b", some ⟨some "S", ["y"], []⟩⟩]⟩

/-- `c2DocA` with its component list reversed. -/
def c2DocB : ArchDoc :=
  ⟨"arch", [⟨some "b", some ⟨some "S", ["y"], []⟩⟩,
            ⟨some "a", some ⟨some "S", ["x"], []⟩⟩]⟩

/-- A document whose two components resolve to distinct service
codenames (`S1`, `S2`). -/
def c2WitDocA : ArchDoc :=
  ⟨"w", [⟨some "a", some ⟨some "S1", ["x"], [⟨some "X", [], some 2, []⟩]⟩⟩,
         ⟨some "b", some ⟨some "S2", ["y"], []⟩⟩]⟩

/-- `c2WitDocA` with its component list reversed. -/
def c2WitDocB : ArchDoc :=
  ⟨"w", [⟨some "b", some ⟨some "S2", ["y"], []⟩⟩,
         ⟨some "a", some ⟨some "S1", ["x"], [⟨some "X", [], some 2, []⟩]⟩⟩]⟩

/-- Baseline document for the values-differ fixture: service `S`,
component `c_X`, attribute `a` with value `"1"`. -/
def c4DocBase : ArchDoc :=
  ⟨"arch1", [⟨some "c", some ⟨some "S", [],
    [⟨some "X", [⟨some "a", some "1", none, none⟩], some 1, []⟩]⟩⟩]⟩

/-- Enhanced document for the values-differ fixture: identical to
`c4DocBase` except attribute `a` has value `"2"`. -/
def c4DocEnh : ArchDoc :=
  ⟨"arch1", [⟨some "c", some ⟨some "S", [],
    [⟨some "X", [⟨some "a", some "2", none, none⟩], some 1, []⟩]⟩⟩]⟩

/-- A qualifying sentence of more than 150 characters containing the
phrase `"provides"` and no sentence separator. -/
def c6LongText : String := "This provides " ++ String.mk (List.replicate 140 'a')

/-- Baseline fixture with two components whose attribute-name sets both
differ from the enhanced side. -/
def st8B : ArchStructure :=
  ⟨[("S", ⟨"S", [],
    [("1_X", ⟨"1", "X", [⟨some "a", none, none, none⟩], 1, []⟩),
     ("1_Y", ⟨"1", "Y", [], 1, []⟩)]⟩)]⟩

/-- Enhanced fixture mirroring `st8B` with the attribute moved from
component `1_X` to component `1_Y`. -/
def st8E : ArchStructure :=
  ⟨[("S", ⟨"S", [],
    [("1_X", ⟨"1", "X", [], 1, []⟩),
     ("1_Y", ⟨"1", "Y", [⟨some "a", none, none, none⟩], 1, []⟩)]⟩)]⟩

/-- One valid enumeration of the component-key set of `st8B`/`st8E`. -/
def c8Order1 : List String := ["S::1_X", "S::1_Y"]

/-- The other valid enumeration of the same two-element set. -/
def c8Order2 : List String := ["S::1_Y", "S::1_X"]

/-- The value stored at key `a` of an attribute-existence map is always
`⟨a, true⟩`. -/
def innerAttrInv (inner : List (String × AttrExistence)) : Prop :=
  ∀ a x, dlookup inner a = some x → x = ⟨a, true⟩

/-- Every inner map of `getAllAttributes` satisfies `innerAttrInv`. -/
def attrMapInv (d : List (String × List (String × AttrExistence))) : Prop :=
  ∀ ck inner, dlookup d ck = some inner → innerAttrInv inner

/-! ### Dictionary lemmas -/

theorem dlookup_dinsert {α : Type} (d : List (String × α)) (k k' : String)
    (v : α) :
    dlookup (dinsert d k v) k' = if k = k' then some v else dlookup d k' := by
  induction d with
  | nil =>
    simp only [dinsert, dlookup]
  | cons hd tl ih =>
    obtain ⟨hk, hv⟩ := hd
    by_cases h1 : hk = k
    · subst h1
      simp only [dinsert, if_pos rfl, dlookup]
      by_cases h2 : hk = k'
      · subst h2; simp
      · simp [h2, fun h : hk = k' => h2 h]
    · simp only [dinsert, if_neg h1, dlookup]
      by_cases h2 : hk = k'
      · subst h2
        have : ¬ k = hk := fun h => h1 h.symm
        simp [this]
      · simp [h2, ih]

theorem dkeys_cons {α : Type} (hk : String) (hv : α) (tl : List (String × α)) :
    dkeys ((hk, hv) :: tl) = hk :: dkeys tl := rfl

theorem isSome_dlookup_iff {α : Type} (d : List (String × α)) (k : String) :
    (dlookup d k).isSome = true ↔ k ∈ dkeys d := by
  induction d with
  | nil => simp [dlookup, dkeys]
  | cons hd tl ih =>
    obtain ⟨hk, hv⟩ := hd
    rw [dkeys_cons, List.mem_cons]
    by_cases h : hk = k
    · subst h; simp [dlookup]
    · simp only [dlookup, if_neg h, ih]
      constructor
      · exact Or.inr
      · rintro (h' | h')
        · exact absurd h'.symm h
        · exact h'

theorem dlookup_eq_none_of_not_mem {α : Type} {d : List (String × α)}
    {k : String} (h : k ∉ dkeys d) : dlookup d k = none := by
  rcases ho : dlookup d k with _ | v
  · rfl
  · exact absurd ((isSome_dlookup_iff d k).mp (by simp [ho])) h

/-- Characterization of Python dict equality: `dictBEqWith veq` holds iff
the lookups agree pointwise, relative to the relation `veq` decides. -/
theorem dictBEqWith_iff {α : Type} {veq : α → α → Bool} {P : α → α → Prop}
    (hveq : ∀ a b, veq a b = true ↔ P a b) (d1 d2 : List (String × α)) :
    dictBEqWith veq d1 d2 = true ↔
      ∀ k, optPRel P (dlookup d1 k) (dlookup d2 k) := by
  unfold dictBEqWith
  rw [Bool.and_eq_true, List.all_eq_true, List.all_eq_true]
  constructor
  · rintro ⟨h1, h2⟩ k
    by_cases hk1 : k ∈ dkeys d1
    · have := h1 k hk1
      rcases e1 : dlookup d1 k with _ | a <;> rcases e2 : dlookup d2 k with _ | b <;>
        rw [e1, e2] at this <;> simp_all [optPRel, hveq]
    · have e1 : dlookup d1 k = none := dlookup_eq_none_of_not_mem hk1
      by_cases hk2 : k ∈ dkeys d2
      · have := h2 k hk2
        rw [e1] at this
        simp at this
      · have e2 : dlookup d2 k = none := dlookup_eq_none_of_not_mem hk2
        simp [e1, e2, optPRel]
  · intro h
    refine ⟨fun k hk1 => ?_, fun k hk2 => ?_⟩
    · have hs1 : (dlookup d1 k).isSome = true := (isSome_dlookup_iff d1 k).mpr hk1
      have := h k
      rcases e1 : dlookup d1 k with _ | a
      · rw [e1] at hs1; simp at hs1
      · rcases e2 : dlookup d2 k with _ | b
        · rw [e1, e2] at this; simp [optPRel] at this
        · rw [e1, e2] at this
          simpa [optPRel, hveq] using this
    · have hs2 : (dlookup d2 k).isSome = true := (isSome_dlookup_iff d2 k).mpr hk2
      have := h k
      rcases e2 : dlookup d2 k with _ | b
      · rw [e2] at hs2; simp at hs2
      · rcases e1 : dlookup d1 k with _ | a
        · rw [e1, e2] at this; simp [optPRel] at this
        · simp [e1]

theorem optPRel_eq_iff {α : Type} (o1 o2 : Option α) :
    optPRel Eq o1 o2 ↔ o1 = o2 := by
  cases o1 <;> cases o2 <;> simp [optPRel]

/-- `dictBEqWith` with a decidable-equality test is pointwise equality of
lookups. -/
theorem dictBEqWith_eq_iff {α : Type} [DecidableEq α]
    {veq : α → α → Bool} (hveq : ∀ a b : α, veq a b = true ↔ a = b)
    (d1 d2 : List (String × α)) :
    dictBEqWith veq d1 d2 = true ↔ ∀ k, dlookup d1 k = dlookup d2 k := by
  rw [dictBEqWith_iff hveq]
  exact forall_congr' fun k => optPRel_eq_iff _ _

/-! ### Key-set lemmas -/

theorem memB_iff (k : String) (l : List String) : memB k l = true ↔ k ∈ l := by
  simp [memB, List.contains, List.elem_eq_mem]

theorem setEqB_iff (l1 l2 : List String) :
    setEqB l1 l2 = true ↔ ∀ k, k ∈ l1 ↔ k ∈ l2 := by
  unfold setEqB
  rw [Bool.and_eq_true, List.all_eq_true, List.all_eq_true]
  constructor
  · rintro ⟨h1, h2⟩ k
    exact ⟨fun hk => (memB_iff k l2).mp (h1 k hk),
           fun hk => (memB_iff k l1).mp (h2 k hk)⟩
  · intro h
    exact ⟨fun k hk => (memB_iff k l2).mpr ((h k).mp hk),
           fun k hk => (memB_iff k l1).mpr ((h k).mpr hk)⟩

theorem setEqB_iff_toFinset (l1 l2 : List String) :
    setEqB l1 l2 = true ↔ l1.toFinset = l2.toFinset := by
  rw [setEqB_iff]
  constructor
  · intro h
    ext k
    simpa using h k
  · intro h k
    have := Finset.ext_iff.mp h k
    simpa using this

theorem mem_canonicalUnion (k : String) (l1 l2 : List String) :
    k ∈ canonicalUnion l1 l2 ↔ k ∈ l1 ∨ k ∈ l2 := by
  simp [canonicalUnion]

/-! ### Sorting lemmas -/

theorem sortStrings_perm (l : List String) : List.Perm (sortStrings l) l :=
  List.perm_insertionSort _ l

theorem sortStrings_sorted_le (l : List String) :
    List.Sorted (· ≤ ·) (sortStrings l) :=
  List.sorted_insertionSort _ l

theorem sortStrings_sorted_lt {l : List String} (h : l.Nodup) :
    List.Sorted (· < ·) (sortStrings l) :=
  List.Sorted.lt_of_le (sortStrings_sorted_le l)
    ((sortStrings_perm l).nodup_iff.mpr h)

theorem mem_sortedSetDiff (k : String) (l1 l2 : List String) :
    k ∈ sortedSetDiff l1 l2 ↔ k ∈ l1 ∧ k ∉ l2 := by
  unfold sortedSetDiff
  rw [(sortStrings_perm _).mem_iff]
  simp [memB_iff, List.mem_filter, memB]

theorem sortedSetDiff_ne_nil {l1 l2 : List String} {k : String}
    (hk : k ∈ l1) (hk2 : k ∉ l2) : sortedSetDiff l1 l2 ≠ [] := by
  intro h
  have := (mem_sortedSetDiff k l1 l2).mpr ⟨hk, hk2⟩
  rw [h] at this
  exact absurd this (List.not_mem_nil k)

/-! ### String-length lemmas -/

theorem pyLen_append (a b : String) : pyLen (a ++ b) = pyLen a + pyLen b := by
  simp [pyLen, String.data_append]

theorem pyLen_eq_zero_iff (s : String) : pyLen s = 0 ↔ s = "" := by
  constructor
  · intro h
    apply String.ext
    exact List.length_eq_zero.mp h
  · intro h; subst h; rfl

theorem ne_empty_of_pyLen_pos {s : String} (h : 0 < pyLen s) : s ≠ "" := by
  intro he
  rw [(pyLen_eq_zero_iff s).mpr he] at h
  exact absurd h (lt_irrefl 0)

theorem append_ne_empty_left {a : String} (b : String) (h : a ≠ "") :
    a ++ b ≠ "" := by
  apply ne_empty_of_pyLen_pos
  rw [pyLen_append]
  have : pyLen a ≠ 0 := fun h0 => h ((pyLen_eq_zero_iff a).mp h0)
  omega

theorem append_ne_empty_right (a : String) {b : String} (h : b ≠ "") :
    a ++ b ≠ "" := by
  apply ne_empty_of_pyLen_pos
  rw [pyLen_append]
  have : pyLen b ≠ 0 := fun h0 => h ((pyLen_eq_zero_iff b).mp h0)
  omega

theorem pyLen_le_pyJoin_foldl (sep : String) (l : List String) :
    ∀ acc : String,
      pyLen acc ≤ pyLen (l.foldl (fun a x => a ++ sep ++ x) acc) := by
  induction l with
  | nil => intro acc; exact le_refl _
  | cons x xs ih =>
    intro acc
    calc pyLen acc ≤ pyLen (acc ++ sep ++ x) := by
          rw [pyLen_append, pyLen_append]; omega
      _ ≤ _ := ih (acc ++ sep ++ x)

theorem pyJoin_cons_ne_empty (sep : String) {p : String} (l : List String)
    (h : p ≠ "") : pyJoin sep (p :: l) ≠ "" := by
  apply ne_empty_of_pyLen_pos
  have h1 : 0 < pyLen p := by
    rcases Nat.eq_zero_or_pos (pyLen p) with h0 | h0
    · exact absurd ((pyLen_eq_zero_iff p).mp h0) h
    · exact h0
  exact lt_of_lt_of_le h1 (pyLen_le_pyJoin_foldl sep l p)

theorem joinDifferences_ne_empty {l : List String}
    (h : ∀ p ∈ l, p ≠ "") : joinDifferences l ≠ "" := by
  unfold joinDifferences
  cases l with
  | nil => simp
  | cons p rest =>
    rw [if_neg (by simp)]
    exact pyJoin_cons_ne_empty _ rest (h p (List.mem_cons_self p rest))

theorem mem_if_singleton {c : Prop} [Decidable c] {x p : String}
    (h : p ∈ (if c then [x] else ([] : List String))) : p = x := by
  split at h <;> simp_all

theorem mid_append_ne (a : String) {m : String} (b : String) (hm : m ≠ "") :
    a ++ m ++ b ≠ "" :=
  append_ne_empty_left b (append_ne_empty_right a hm)

/-! ### Non-emptiness of every difference text -/

theorem onlyParts_mem_ne {bo eo : List String} :
    ∀ p ∈ onlyParts bo eo, p ≠ "" := by
  intro p hp
  unfold onlyParts at hp
  rcases List.mem_append.mp hp with h | h
  · rw [mem_if_singleton h]
    exact append_ne_empty_left _ (by decide)
  · rw [mem_if_singleton h]
    exact append_ne_empty_left _ (by decide)

theorem compareServicesLevel_differences_ne (b e : ArchStructure) :
    (compareServicesLevel b e).differences ≠ "" := by
  unfold compareServicesLevel
  apply joinDifferences_ne_empty
  intro p hp
  simp only [] at hp
  split at hp
  · exact absurd hp (List.not_mem_nil p)
  · exact onlyParts_mem_ne p hp

theorem compareComponentsLevel_differences_ne (b e : ArchStructure) :
    (compareComponentsLevel b e).differences ≠ "" := by
  unfold compareComponentsLevel
  apply joinDifferences_ne_empty
  intro p hp
  simp only [] at hp
  split at hp
  · exact absurd hp (List.not_mem_nil p)
  · exact onlyParts_mem_ne p hp

theorem attributesPieceAt_ne {battrs eattrs : List (String × List (String × AttrExistence))}
    {ck p : String} (h : attributesPieceAt battrs eattrs ck = some p) :
    p ≠ "" := by
  unfold attributesPieceAt at h
  simp only [] at h
  split at h
  · exact absurd h (by simp)
  · split at h
    · exact absurd h (by simp)
    · split at h
      · exact absurd h (by simp)
      · rw [Option.some_inj] at h
        rw [← h]
        exact append_ne_empty_right _ (by decide)

theorem compareAttributesLevelOrd_differences_ne (order : List String)
    (b e : ArchStructure) :
    (compareAttributesLevelOrd order b e).differences ≠ "" := by
  unfold compareAttributesLevelOrd
  apply joinDifferences_ne_empty
  intro p hp
  unfold attributesDifferenceEntries at hp
  simp only [] at hp
  split at hp
  · exact absurd hp (List.not_mem_nil p)
  · obtain ⟨ck, _, hck⟩ := List.mem_filterMap.mp hp
    exact attributesPieceAt_ne hck

theorem ite_none_some {α : Type} {c : Prop} [Decidable c] {x p : α}
    (h : (if c then none else some x) = some p) : p = x := by
  split at h
  · exact absurd h (by simp)
  · exact (Option.some_inj.mp h).symm

theorem configurationsPieceAtOrd_ne
    {attrNamesOrd : List (String × AttrConfig) → List (String × AttrConfig) →
      List String}
    {bconfigs econfigs : List (String × ConfigEntry)}
    {ck p : String}
    (h : configurationsPieceAtOrd attrNamesOrd bconfigs econfigs ck = some p) :
    p ≠ "" := by
  unfold configurationsPieceAtOrd at h
  simp only [] at h
  split at h
  · exact absurd h (by simp)
  · rw [ite_none_some h]
    exact append_ne_empty_right _ (by decide)

theorem compareConfigurationsLevelOrd_differences_ne (keysOrd : List String)
    (attrNamesOrd : List (String × AttrConfig) → List (String × AttrConfig) →
      List String)
    (b e : ArchStructure) :
    (compareConfigurationsLevelOrd keysOrd attrNamesOrd b e).differences ≠ "" := by
  unfold compareConfigurationsLevelOrd
  apply joinDifferences_ne_empty
  intro p hp
  simp only [] at hp
  split at hp
  · exact absurd hp (List.not_mem_nil p)
  · obtain ⟨ck, _, hck⟩ := List.mem_filterMap.mp hp
    exact configurationsPieceAtOrd_ne hck

theorem mem_if_nil_singleton {c : Prop} [Decidable c] {x p : String}
    (h : p ∈ (if c then ([] : List String) else [x])) : p = x := by
  split at h <;> simp_all

theorem mem_insightPieces {pre text ctx p : String}
    (h : p ∈ insightPieces pre text ctx) : ∃ ki, p = pre ++ ki := by
  unfold insightPieces at h
  simp only [] at h
  split at h
  · exact ⟨_, List.mem_singleton.mp h⟩
  · exact absurd h (List.not_mem_nil p)

theorem mem_if_insightPieces {c : Prop} [Decidable c] {pre text ctx p : String}
    (h : p ∈ (if c then insightPieces pre text ctx else [])) :
    ∃ ki, p = pre ++ ki := by
  split at h
  · exact mem_insightPieces h
  · exact absurd h (List.not_mem_nil p)

theorem svcPieces_mem_ne (blk elk : List (String × ReasoningRec))
    (bsvc esvc : List String) (sn : String) :
    ∀ p ∈ svcPieces blk elk bsvc esvc sn, p ≠ "" := by
  intro p hp
  unfold svcPieces at hp
  simp only [] at hp
  split at hp
  · rcases mem_if_nil_singleton hp with rfl
    exact mid_append_ne _ _ (by decide)
  · split at hp
    · rcases List.mem_append.mp hp with hp | hp <;>
        · obtain ⟨ki, rfl⟩ := mem_if_insightPieces hp
          exact append_ne_empty_left _ (append_ne_empty_right _ (by decide))
    · split at hp
      · obtain ⟨ki, rfl⟩ := mem_if_insightPieces hp
        exact append_ne_empty_left _ (append_ne_empty_right _ (by decide))
      · exact absurd hp (List.not_mem_nil p)

theorem fallbackPiece_mem_ne (blk elk : List (String × ReasoningRec))
    (sn : String) : ∀ p ∈ fallbackPiece blk elk sn, p ≠ "" := by
  intro p hp
  unfold fallbackPiece at hp
  simp only [] at hp
  split at hp
  · obtain ⟨ki, rfl⟩ := mem_insightPieces hp
    exact append_ne_empty_left _ (append_ne_empty_right _ (by decide))
  · split at hp
    · obtain ⟨ki, rfl⟩ := mem_insightPieces hp
      exact append_ne_empty_left _ (append_ne_empty_right _ (by decide))
    · exact absurd hp (List.not_mem_nil p)

theorem finalJoin_ne {l : List String} (lit : String) (hlit : lit ≠ "")
    (h : ∀ p ∈ l, p ≠ "") :
    (if l.isEmpty then lit else pyJoin "; " l) ≠ "" := by
  cases l with
  | nil => simpa using hlit
  | cons p rest =>
    rw [if_neg (by simp)]
    exact pyJoin_cons_ne_empty _ rest (h p (List.mem_cons_self p rest))

theorem getReasoningDescriptionOrd_ne
    (svcOrd commonOrd : List String → List String → List String)
    (blk elk : List (String × ReasoningRec))
    (b e : ArchStructure) :
    getReasoningDescriptionOrd svcOrd commonOrd blk elk b e ≠ "" := by
  unfold getReasoningDescriptionOrd
  apply finalJoin_ne _ (by decide)
  intro p hp
  split at hp
  · obtain ⟨l, hl, hpl⟩ := List.mem_flatten.mp hp
    obtain ⟨sn, _, rfl⟩ := List.mem_map.mp hl
    exact fallbackPiece_mem_ne blk elk sn p hpl
  · obtain ⟨l, hl, hpl⟩ := List.mem_flatten.mp hp
    obtain ⟨sn, _, rfl⟩ := List.mem_map.mp hl
    exact svcPieces_mem_ne blk elk _ _ sn p hpl

/-! ### Services-level characterization (support for C5) -/

theorem exists_one_sided_of_not_setEq {l1 l2 : List String}
    (h : setEqB l1 l2 = false) :
    ∃ k, (k ∈ l1 ∧ k ∉ l2) ∨ (k ∈ l2 ∧ k ∉ l1) := by
  by_contra hno
  push_neg at hno
  have : setEqB l1 l2 = true := by
    rw [setEqB_iff]
    intro k
    obtain ⟨h1, h2⟩ := hno k
    exact ⟨h1, h2⟩
  rw [this] at h
  exact absurd h (by simp)

theorem onlyParts_ne_nil {l1 l2 : List String} (h : setEqB l1 l2 = false) :
    onlyParts (sortedSetDiff l1 l2) (sortedSetDiff l2 l1) ≠ [] := by
  obtain ⟨k, ⟨h1, h2⟩ | ⟨h1, h2⟩⟩ := exists_one_sided_of_not_setEq h
  · have hne : sortedSetDiff l1 l2 ≠ [] := sortedSetDiff_ne_nil h1 h2
    unfold onlyParts
    intro habs
    have h1nil := (List.append_eq_nil.mp habs).1
    rw [if_pos (by simpa using hne)] at h1nil
    exact absurd h1nil (by simp)
  · have hne : sortedSetDiff l2 l1 ≠ [] := sortedSetDiff_ne_nil h1 h2
    unfold onlyParts
    intro habs
    have h2nil := (List.append_eq_nil.mp habs).2
    rw [if_pos (by simpa using hne)] at h2nil
    exact absurd h2nil (by simp)

/-! ### Normalizer lemmas (support for C2) -/

theorem dlookup_extractStep_of_ne {d : List (String × ServiceEntry)}
    {c : RawComponent} {s : String} (h : svcName c ≠ s) :
    dlookup (extractStep d c) s = dlookup d s := by
  unfold extractStep
  simp only []
  rw [dlookup_dinsert]
  rw [if_neg (by simpa [svcName] using h)]

theorem dlookup_extractStep_self {d : List (String × ServiceEntry)}
    {c : RawComponent} (h : dlookup d (svcName c) = none) :
    dlookup (extractStep d c) (svcName c) = some (entryOf c) := by
  unfold extractStep entryOf
  simp only []
  rw [dlookup_dinsert]
  rw [if_pos (by simp [svcName])]
  rw [show ((c.service_search_space.getD
      emptyServiceSpace).service_codename.getD "Unknown") = svcName c from rfl]
  rw [h]

theorem isSome_dlookup_extractStep (d : List (String × ServiceEntry))
    (c : RawComponent) (s : String) :
    (dlookup (extractStep d c) s).isSome = true ↔
      (dlookup d s).isSome = true ∨ s = svcName c := by
  unfold extractStep
  simp only []
  rw [dlookup_dinsert]
  by_cases hs : (c.service_search_space.getD
      emptyServiceSpace).service_codename.getD "Unknown" = s
  · rw [if_pos hs]
    simp [svcName, hs.symm]
  · rw [if_neg hs]
    have : ¬ s = svcName c := fun h => hs (by simpa [svcName] using h.symm)
    simp [this]

theorem dlookup_foldl_extractStep_not_mem {cs : List RawComponent} {s : String}
    (h : s ∉ cs.map svcName) :
    ∀ d, dlookup (cs.foldl extractStep d) s = dlookup d s := by
  induction cs with
  | nil => intro d; rfl
  | cons c rest ih =>
    intro d
    rw [List.map_cons, List.mem_cons] at h
    push_neg at h
    rw [List.foldl_cons, ih h.2, dlookup_extractStep_of_ne (fun he => h.1 he.symm)]

theorem dlookup_foldl_extractStep_unique {cs : List RawComponent}
    (hnd : (cs.map svcName).Nodup) {c : RawComponent} (hc : c ∈ cs) :
    ∀ d, dlookup d (svcName c) = none →
      dlookup (cs.foldl extractStep d) (svcName c) = some (entryOf c) := by
  induction cs with
  | nil => exact absurd hc (List.not_mem_nil c)
  | cons c' rest ih =>
    intro d hd
    rw [List.map_cons, List.nodup_cons] at hnd
    rw [List.foldl_cons]
    rcases List.mem_cons.mp hc with rfl | hc'
    · rw [dlookup_foldl_extractStep_not_mem hnd.1]
      exact dlookup_extractStep_self hd
    · have hne : svcName c' ≠ svcName c := by
        intro he
        exact hnd.1 (he ▸ List.mem_map_of_mem svcName hc')
      exact ih hnd.2 hc' _ (by rw [dlookup_extractStep_of_ne hne]; exact hd)

theorem isSome_dlookup_foldl_extractStep (cs : List RawComponent) (s : String) :
    ∀ d, (dlookup (cs.foldl extractStep d) s).isSome = true ↔
      (dlookup d s).isSome = true ∨ s ∈ cs.map svcName := by
  induction cs with
  | nil => intro d; simp
  | cons c rest ih =>
    intro d
    rw [List.foldl_cons, ih, isSome_dlookup_extractStep]
    rw [List.map_cons, List.mem_cons]
    tauto

/-! ### Orchestrator lemmas (support for C7) -/

theorem mem_dkeys_dinsert {α : Type} (d : List (String × α)) (k k' : String)
    (v : α) : k' ∈ dkeys (dinsert d k v) ↔ k' ∈ dkeys d ∨ k' = k := by
  rw [← isSome_dlookup_iff, ← isSome_dlookup_iff, dlookup_dinsert]
  by_cases h : k = k'
  · subst h; simp
  · rw [if_neg h]
    constructor
    · exact Or.inl
    · rintro (hm | he)
      · exact hm
      · exact absurd he.symm h

theorem mem_dkeys_buildArchDict (l : List ArchDoc) (k : String) :
    k ∈ dkeys (buildArchDict l) ↔ k ∈ l.map (·.architecture_id) := by
  unfold buildArchDict
  suffices h : ∀ d, k ∈ dkeys (l.foldl (fun d a => dinsert d a.architecture_id a) d) ↔
      k ∈ dkeys d ∨ k ∈ l.map (·.architecture_id) by
    rw [h []]
    simp [dkeys]
  induction l with
  | nil => intro d; simp
  | cons a rest ih =>
    intro d
    rw [List.foldl_cons, ih, mem_dkeys_dinsert]
    rw [List.map_cons, List.mem_cons]
    tauto

theorem createComparisonRowOrd_architecture_id (ords : SetIterOrders)
    (blk elk : List (String × ReasoningRec)) (archId : String)
    (b e : Option ArchDoc) :
    (createComparisonRowOrd ords blk elk archId b e).architecture_id = archId := by
  cases b <;> cases e <;> rfl

theorem boolToBit_ok (x : Bool) :
    (boolToBit x == 0 || boolToBit x == 1) = true := by
  cases x <;> rfl

theorem rowOkB_createComparisonRowOrd (ords : SetIterOrders)
    (blk elk : List (String × ReasoningRec))
    (archId : String) (b e : Option ArchDoc) :
    rowOkB (createComparisonRowOrd ords blk elk archId b e) = true := by
  cases b with
  | none => rfl
  | some ba =>
    cases e with
    | none => rfl
    | some ea =>
      unfold createComparisonRowOrd rowOkB
      simp only [boolToBit_ok, Bool.and_eq_true, bne_iff_ne]
      refine ⟨⟨⟨⟨⟨⟨⟨⟨trivial, trivial⟩, trivial⟩, trivial⟩, ?_⟩, ?_⟩, ?_⟩, ?_⟩, ?_⟩
      · exact compareServicesLevel_differences_ne _ _
      · exact compareComponentsLevel_differences_ne _ _
      · exact compareAttributesLevelOrd_differences_ne _ _ _
      · exact compareConfigurationsLevelOrd_differences_ne _ _ _ _
      · exact getReasoningDescriptionOrd_ne _ _ _ _ _ _

/-! ### Attribute-existence invariants (support for C1 and C4) -/

theorem foldl_preserves {α β : Type} {P : α → Prop} {f : α → β → α}
    (hstep : ∀ d x, P d → P (f d x)) :
    ∀ (l : List β) (d : α), P d → P (l.foldl f d) := by
  intro l
  induction l with
  | nil => intro d h; exact h
  | cons x rest ih => intro d h; exact ih (f d x) (hstep d x h)

theorem innerAttrInv_dinsert {inner : List (String × AttrExistence)}
    (h : innerAttrInv inner) (an : String) :
    innerAttrInv (dinsert inner an ⟨an, true⟩) := by
  intro a x hx
  rw [dlookup_dinsert] at hx
  by_cases he : an = a
  · subst he
    rw [if_pos rfl] at hx
    exact (Option.some_inj.mp hx).symm
  · rw [if_neg he] at hx
    exact h a x hx

theorem innerAttrInv_attrFold (l : List RawAttribute) :
    ∀ m, innerAttrInv m →
      innerAttrInv (l.foldl (fun m a =>
        let an := a.attribute_codename.getD "unknown"
        dinsert m an { codename := an, existsMark := true }) m) := by
  intro m hm
  refine foldl_preserves ?_ l m hm
  intro d a hd
  exact innerAttrInv_dinsert hd _

theorem attrMapInv_dinsert {d : List (String × List (String × AttrExistence))}
    {inner : List (String × AttrExistence)} (hd : attrMapInv d)
    (hi : innerAttrInv inner) (ck : String) :
    attrMapInv (dinsert d ck inner) := by
  intro ck' inner' h
  rw [dlookup_dinsert] at h
  by_cases he : ck = ck'
  · subst he
    rw [if_pos rfl] at h
    rw [← Option.some_inj.mp h]
    exact hi
  · rw [if_neg he] at h
    exact hd ck' inner' h

theorem attrMapInv_getAllAttributes (st : ArchStructure) :
    attrMapInv (getAllAttributes st) := by
  unfold getAllAttributes
  apply foldl_preserves (P := attrMapInv) ?_ st.services [] ?_
  · intro d kv hd
    apply foldl_preserves (P := attrMapInv) ?_ kv.2.components d hd
    intro d2 ckv hd2
    apply attrMapInv_dinsert hd2
    exact innerAttrInv_attrFold _ [] (fun a x h => absurd h (by simp [dlookup]))
  · intro ck inner h
    exact absurd h (by simp [dlookup])

theorem innerEq_of_nameSetEq {i1 i2 : List (String × AttrExistence)}
    (h1 : innerAttrInv i1) (h2 : innerAttrInv i2)
    (hset : ∀ a, a ∈ dkeys i1 ↔ a ∈ dkeys i2) :
    ∀ a, dlookup i1 a = dlookup i2 a := by
  intro a
  by_cases hm : a ∈ dkeys i1
  · have hs1 : (dlookup i1 a).isSome = true := (isSome_dlookup_iff i1 a).mpr hm
    have hs2 : (dlookup i2 a).isSome = true :=
      (isSome_dlookup_iff i2 a).mpr ((hset a).mp hm)
    rcases e1 : dlookup i1 a with _ | x
    · rw [e1] at hs1; simp at hs1
    · rcases e2 : dlookup i2 a with _ | y
      · rw [e2] at hs2; simp at hs2
      · rw [h1 a x e1, h2 a y e2]
  · have hm2 : a ∉ dkeys i2 := fun h => hm ((hset a).mpr h)
    rw [dlookup_eq_none_of_not_mem hm, dlookup_eq_none_of_not_mem hm2]

theorem optPRel_congr {α : Type} {P Q : α → α → Prop}
    (h : ∀ a b, P a b ↔ Q a b) (o1 o2 : Option α) :
    optPRel P o1 o2 ↔ optPRel Q o1 o2 := by
  cases o1 <;> cases o2 <;> simp [optPRel, h]

/-- The attributes-level `same` flag, characterized as strict deep dict
equality of the two existence maps. -/
theorem attributesSame_iff_strict (b e : ArchStructure) :
    (compareAttributesLevel b e).same = true ↔ attrExistMapsStrictEq b e := by
  show dictBEqWith (dictBEqWith attrExistBEq)
    (getAllAttributes b) (getAllAttributes e) = true ↔ _
  rw [dictBEqWith_iff (P := fun i1 i2 => ∀ a, dlookup i1 a = dlookup i2 a)
    (fun i1 i2 => dictBEqWith_eq_iff
      (fun a b => by simp [attrExistBEq]) i1 i2)]
  rfl

/-- Equal attribute-name sets per component key force the existence maps
to be strictly equal. -/
theorem strictEq_of_attrNamesAgree {b e : ArchStructure}
    (h : attrNamesAgreeB b e = true) : attrExistMapsStrictEq b e := by
  unfold attrNamesAgreeB at h
  simp only [Bool.and_eq_true, List.all_eq_true] at h
  obtain ⟨hk, hin⟩ := h
  rw [setEqB_iff] at hk
  intro k
  by_cases hm : k ∈ dkeys (getAllAttributes b)
  · have hm2 : k ∈ dkeys (getAllAttributes e) := (hk k).mp hm
    have hs1 : (dlookup (getAllAttributes b) k).isSome = true :=
      (isSome_dlookup_iff _ k).mpr hm
    have hs2 : (dlookup (getAllAttributes e) k).isSome = true :=
      (isSome_dlookup_iff _ k).mpr hm2
    rcases e1 : dlookup (getAllAttributes b) k with _ | i1
    · rw [e1] at hs1; simp at hs1
    · rcases e2 : dlookup (getAllAttributes e) k with _ | i2
      · rw [e2] at hs2; simp at hs2
      · show optPRel _ (some i1) (some i2)
        have hku : k ∈ canonicalUnion (dkeys (getAllAttributes b))
            (dkeys (getAllAttributes e)) :=
          (mem_canonicalUnion _ _ _).mpr (Or.inl hm)
        have := hin k hku
        rw [e1, e2] at this
        simp only [Option.getD_some] at this
        rw [setEqB_iff] at this
        exact innerEq_of_nameSetEq
          (attrMapInv_getAllAttributes b k i1 e1)
          (attrMapInv_getAllAttributes e k i2 e2) this
  · have hm2 : k ∉ dkeys (getAllAttributes e) := fun h2 => hm ((hk k).mpr h2)
    rw [dlookup_eq_none_of_not_mem hm, dlookup_eq_none_of_not_mem hm2]
    exact trivial

/-- The head of the key-sentence list the source collects is the image of
the first matching sentence. -/
theorem filterMap_ite_head {α β : Type} (p : α → Bool) (f : α → β) :
    ∀ l : List α,
      (l.filterMap (fun s => if p s then some (f s) else none)).head? =
        (l.find? p).map f := by
  intro l
  induction l with
  | nil => rfl
  | cons a rest ih =>
    rcases hp : p a with _ | _
    · rw [List.find?_cons_of_neg _ (by simp [hp])]
      simp [List.filterMap_cons, hp, ih]
    · rw [List.find?_cons_of_pos _ hp]
      simp [List.filterMap_cons, hp]

theorem map_architecture_id_of_map {g : String → TabularComparisonRow}
    (h : ∀ s, (g s).architecture_id = s) :
    ∀ l : List String, (l.map g).map (·.architecture_id) = l := by
  intro l
  rw [List.map_map]
  refine Eq.trans (List.map_congr_left ?_) (List.map_id l)
  intro a _
  exact h a

/-- A row's identifier and its four binary flags do not depend on the
choice of set-enumeration orders: the flags are computed from
order-insensitive dict equality before any set is iterated, and the
shortcut rows use no set at all. -/
theorem createComparisonRowOrd_oracle_invariant (o1 o2 : SetIterOrders)
    (blk elk : List (String × ReasoningRec)) (archId : String)
    (b e : Option ArchDoc) :
    (createComparisonRowOrd o1 blk elk archId b e).architecture_id =
      (createComparisonRowOrd o2 blk elk archId b e).architecture_id ∧
    (createComparisonRowOrd o1 blk elk archId b e).services_same =
      (createComparisonRowOrd o2 blk elk archId b e).services_same ∧
    (createComparisonRowOrd o1 blk elk archId b e).components_same =
      (createComparisonRowOrd o2 blk elk archId b e).components_same ∧
    (createComparisonRowOrd o1 blk elk archId b e).attributes_same =
      (createComparisonRowOrd o2 blk elk archId b e).attributes_same ∧
    (createComparisonRowOrd o1 blk elk archId b e).configurations_same =
      (createComparisonRowOrd o2 blk elk archId b e).configurations_same := by
  cases b <;> cases e <;> exact ⟨rfl, rfl, rfl, rfl, rfl⟩

/-! ### Claim theorems -/

/-- C1, counterexample: the claim's reading — absent component keys behave
as empty attribute maps — declares `stB` and `stE` equal at the attributes
level, yet `_compare_attributes_level` returns `same = False` on them
(`stB` has component key `S::c_X` with an empty attribute dict, `stE` has
no component keys, and Python dict equality distinguishes a missing key
from a key mapped to `{}`). -/
theorem C1_counterexample :
    attributesAgreeWithEmptyDefault stB stE = true ∧
    ¬ ((compareAttributesLevel stB stE).same = true) := by decide

/-- C1, amended: for every pair of normalized architectures, the
attributes-level differencer returns `same = True` iff the per-component
attribute-existence maps are equal as Python dicts: the same component
keys on both sides and, for each, pointwise-equal attribute-existence
maps.  A component key present on only one side makes the structures
differ at this level even when its attribute list is empty. -/
theorem C1_attributes_same_iff_strict_dict_eq (b e : ArchStructure) :
    (compareAttributesLevel b e).same = true ↔ attrExistMapsStrictEq b e :=
  attributesSame_iff_strict b e

/-- C2, counterexample: two raw components that share service codename `S`
but carry different `service_select_attributes` make normalization
order-dependent even though the document has no duplicate composite
component keys — reordering swaps which `select_attributes` list is
stored (first sight wins), so the normalized structures differ. -/
theorem C2_counterexample :
    List.Perm c2DocA.components_search_space c2DocB.components_search_space ∧
    (allCompositeKeys c2DocA).Nodup ∧ (allCompositeKeys c2DocB).Nodup ∧
    servicesEquivB (extractArchitectureStructure (some c2DocA))
      (extractArchitectureStructure (some c2DocB)) = false := by decide

/-- C2, amended: for every raw architecture document in which no two
components resolve to the same service codename, every reordering of the
component list yields a dict-equal `NormalizedArchitecture` (same
services, `select_attributes`, and component entries).  When components do
share a service codename, the result is order-dependent: the earliest
occurrence supplies `select_attributes` and, for colliding composite
component keys, the latest occurrence supplies the stored component
fields (last write wins). -/
theorem C2_reorder_equiv_of_unique_service_codenames (d1 d2 : ArchDoc)
    (hperm : List.Perm d1.components_search_space d2.components_search_space)
    (hnd : (d1.components_search_space.map svcName).Nodup) :
    servicesEquivB (extractArchitectureStructure (some d1))
      (extractArchitectureStructure (some d2)) = true := by
  have hnd2 : (d2.components_search_space.map svcName).Nodup :=
    ((hperm.map svcName).nodup_iff).mp hnd
  unfold servicesEquivB extractArchitectureStructure
  rw [dictBEqWith_eq_iff (fun a b : ServiceEntry => beq_iff_eq)]
  intro k
  by_cases hk : k ∈ d1.components_search_space.map svcName
  · obtain ⟨c, hc, rfl⟩ := List.mem_map.mp hk
    rw [dlookup_foldl_extractStep_unique hnd hc [] rfl,
      dlookup_foldl_extractStep_unique hnd2 (hperm.subset hc) [] rfl]
  · have hk2 : k ∉ d2.components_search_space.map svcName :=
      fun h2 => hk (((hperm.map svcName).mem_iff).mpr h2)
    rw [dlookup_foldl_extractStep_not_mem hk, dlookup_foldl_extractStep_not_mem hk2]

/-- C2, witness: a concrete document with two distinct service codenames
and its reversal normalize to dict-equal structures. -/
theorem C2_witness :
    List.Perm c2WitDocA.components_search_space c2WitDocB.components_search_space ∧
    (c2WitDocA.components_search_space.map svcName).Nodup ∧
    servicesEquivB (extractArchitectureStructure (some c2WitDocA))
      (extractArchitectureStructure (some c2WitDocB)) = true :=
  ⟨by decide, by decide,
    C2_reorder_equiv_of_unique_service_codenames c2WitDocA c2WitDocB
      (by decide) (by decide)⟩

/-- C3: an architecture identifier absent from one side's document set
short-circuits to the literal row — all four `*_same` flags `0`, all four
difference fields `"Architecture only in baseline"` (resp. `enhanced`),
and `reasoning_description` `"Architecture exists only in baseline
dataset"` (resp. `enhanced`) — by the early returns of
`_create_comparison_row`, before any differencer or the rationale
extractor could run. -/
theorem C3_missing_architecture_shortcut
    (blk elk : List (String × ReasoningRec)) (archId : String)
    (b e : ArchDoc) :
    createComparisonRow blk elk archId none (some e) = enhancedOnlyRow archId ∧
    createComparisonRow blk elk archId (some b) none = baselineOnlyRow archId :=
  ⟨rfl, rfl⟩

/-- C4: when every component key carries the same attribute-codename sets
on both sides but some stored attribute's `values` differ, the row shows
`attributes_same = 1` (the attributes level compares codename existence
only) and `configurations_same = 0` (the configurations level compares
values, constraint, and unit). -/
theorem C4_attributes_blind_to_values (blk elk : List (String × ReasoningRec))
    (archId : String) (ba ea : ArchDoc)
    (hnames : attrNamesAgreeB (extractArchitectureStructure (some ba))
      (extractArchitectureStructure (some ea)) = true)
    (hvals : ∃ ck an b1 e1 a1 a2,
      dlookup (getAllConfigurations (extractArchitectureStructure (some ba))) ck
        = some b1 ∧
      dlookup (getAllConfigurations (extractArchitectureStructure (some ea))) ck
        = some e1 ∧
      dlookup b1.attributes an = some a1 ∧
      dlookup e1.attributes an = some a2 ∧
      a1.values ≠ a2.values) :
    (createComparisonRow blk elk archId (some ba) (some ea)).attributes_same = 1 ∧
    (createComparisonRow blk elk archId (some ba) (some ea)).configurations_same = 0 := by
  have hsame : (compareAttributesLevel (extractArchitectureStructure (some ba))
      (extractArchitectureStructure (some ea))).same = true :=
    (attributesSame_iff_strict _ _).mpr (strictEq_of_attrNamesAgree hnames)
  have hconf : dictBEqWith configEntryBEq
      (getAllConfigurations (extractArchitectureStructure (some ba)))
      (getAllConfigurations (extractArchitectureStructure (some ea))) = false := by
    rcases hq : dictBEqWith configEntryBEq
      (getAllConfigurations (extractArchitectureStructure (some ba)))
      (getAllConfigurations (extractArchitectureStructure (some ea))) with _ | _
    · rfl
    · exfalso
      have hall := (dictBEqWith_iff
        (P := fun x y => configEntryBEq x y = true)
        (fun x y => Iff.rfl) _ _).mp hq
      obtain ⟨ck, an, b1, e1, a1, a2, hb1, he1, ha1, ha2, hne⟩ := hvals
      have hck := hall ck
      rw [hb1, he1] at hck
      have hbeq : configEntryBEq b1 e1 = true := hck
      unfold configEntryBEq at hbeq
      simp only [Bool.and_eq_true] at hbeq
      have hattr := (dictBEqWith_eq_iff
        (fun a b : AttrConfig => beq_iff_eq) _ _).mp hbeq.2 an
      rw [ha1, ha2] at hattr
      exact hne (congrArg AttrConfig.values (Option.some_inj.mp hattr))
  constructor
  · show boolToBit (compareAttributesLevel
      (extractArchitectureStructure (some ba))
      (extractArchitectureStructure (some ea))).same = 1
    rw [hsame]
    rfl
  · show boolToBit (compareConfigurationsLevel
      (extractArchitectureStructure (some ba))
      (extractArchitectureStructure (some ea))).same = 0
    have : (compareConfigurationsLevel (extractArchitectureStructure (some ba))
        (extractArchitectureStructure (some ea))).same = false := hconf
    rw [this]
    rfl

/-- C4, witness: the fixture pair differing only in attribute `a`'s values
(`"1"` vs `"2"`) yields `attributes_same = 1` and
`configurations_same = 0`. -/
theorem C4_witness :
    attrNamesAgreeB (extractArchitectureStructure (some c4DocBase))
      (extractArchitectureStructure (some c4DocEnh)) = true ∧
    (createComparisonRow [] [] "arch1" (some c4DocBase) (some c4DocEnh)).attributes_same = 1 ∧
    (createComparisonRow [] [] "arch1" (some c4DocBase) (some c4DocEnh)).configurations_same = 0 := by
  have hvals : ∃ ck an b1 e1 a1 a2,
      dlookup (getAllConfigurations (extractArchitectureStructure (some c4DocBase))) ck
        = some b1 ∧
      dlookup (getAllConfigurations (extractArchitectureStructure (some c4DocEnh))) ck
        = some e1 ∧
      dlookup b1.attributes an = some a1 ∧
      dlookup e1.attributes an = some a2 ∧
      a1.values ≠ a2.values :=
    ⟨"S::c_X", "a",
      ⟨1, [], [("a", ⟨some "1", none, none⟩)]⟩,
      ⟨1, [], [("a", ⟨some "2", none, none⟩)]⟩,
      ⟨some "1", none, none⟩, ⟨some "2", none, none⟩,
      by decide, by decide, by decide, by decide, by decide⟩
  obtain ⟨h1, h2⟩ := C4_attributes_blind_to_values [] [] "arch1"
    c4DocBase c4DocEnh (by decide) hvals
  exact ⟨by decide, h1, h2⟩

/-- C5: the services-level verdict is exactly set equality of the two
service-codename key sets, and the difference text is `"No differences"`
when they are equal, else the `"Baseline only: ..."` / `"Enhanced only:
..."` parts (comma-joined sorted names, only non-empty sides, baseline
part first) joined by `"; "` — the `"No differences"` fallback can never
fire in the unequal case because at least one side-only set is
non-empty. -/
theorem C5_services_level_spec (b e : ArchStructure) :
    ((compareServicesLevel b e).same = true ↔
      (dkeys b.services).toFinset = (dkeys e.services).toFinset) ∧
    (compareServicesLevel b e).differences =
      (if (dkeys b.services).toFinset = (dkeys e.services).toFinset
       then "No differences"
       else pyJoin "; " (onlyParts
         (sortedSetDiff (dkeys b.services) (dkeys e.services))
         (sortedSetDiff (dkeys e.services) (dkeys b.services)))) := by
  rcases hsame : setEqB (dkeys b.services) (dkeys e.services) with _ | _
  · have hfin : ¬ (dkeys b.services).toFinset = (dkeys e.services).toFinset := by
      intro h
      rw [(setEqB_iff_toFinset _ _).mpr h] at hsame
      exact absurd hsame (by simp)
    constructor
    · constructor
      · intro hs
        have : setEqB (dkeys b.services) (dkeys e.services) = true := hs
        rw [this] at hsame
        exact absurd hsame (by simp)
      · intro hf
        exact absurd hf hfin
    · show joinDifferences (if setEqB (dkeys b.services) (dkeys e.services) = true
        then []
        else onlyParts
          (sortedSetDiff (dkeys b.services) (dkeys e.services))
          (sortedSetDiff (dkeys e.services) (dkeys b.services))) = _
      rw [if_neg (by rw [hsame]; simp), if_neg hfin]
      unfold joinDifferences
      rw [if_neg (by simpa using onlyParts_ne_nil hsame)]
  · have hfin := (setEqB_iff_toFinset _ _).mp hsame
    constructor
    · exact ⟨fun _ => hfin, fun _ => hsame⟩
    · show joinDifferences (if setEqB (dkeys b.services) (dkeys e.services) = true
        then []
        else onlyParts
          (sortedSetDiff (dkeys b.services) (dkeys e.services))
          (sortedSetDiff (dkeys e.services) (dkeys b.services))) = _
      rw [if_pos hsame, if_pos hfin]
      rfl

set_option maxRecDepth 10000 in
/-- C6, counterexample: `c6LongText` is (after stripping) a single
sentence that contains the key phrase `"provides"`, so the claim as
stated says the extractor returns that sentence with a period appended;
the code instead truncates it to its first 150 characters plus an
ellipsis. -/
theorem C6_counterexample :
    pySplit ". " (pyStrip c6LongText) = [pyStrip c6LongText] ∧
    matchesKeyPhrase (pyStrip c6LongText) = true ∧
    extractKeyInsight c6LongText "Enhanced reasoning" ≠
      withPeriod (pyStrip c6LongText) ∧
    extractKeyInsight c6LongText "Enhanced reasoning" =
      truncate150 (withPeriod (pyStrip c6LongText)) := by decide

/-- C6, amended: the extractor splits on `". "`, returns the first
phrase-bearing sentence (period-appended) — truncated to its first 150
characters plus `"..."` when longer than 150 — else the first sentence
longer than 30 characters (likewise truncated), else the truncated
stripped text; empty input yields empty output.  In particular, the
fixture sentence about Postgres is returned verbatim with its period. -/
theorem C6_extractor_spec :
    (∀ text ctx, extractKeyInsight text ctx = extractKeyInsightSpec text) ∧
    extractKeyInsight
      "We selected Postgres because it ensures durability. It is also cheap."
      "Enhanced reasoning" =
      "We selected Postgres because it ensures durability." := by
  constructor
  · intro text ctx
    unfold extractKeyInsight extractKeyInsightSpec
    by_cases h0 : text = ""
    · rw [if_pos h0, if_pos h0]
    · rw [if_neg h0, if_neg h0]
      simp only []
      have hhead := filterMap_ite_head matchesKeyPhrase withPeriod
        ((pySplit ". " (pyStrip text)).map pyStrip)
      rcases hl : ((pySplit ". " (pyStrip text)).map pyStrip).filterMap
          (fun s => if matchesKeyPhrase s then some (withPeriod s) else none)
        with _ | ⟨k, tl⟩
      · have hf : ((pySplit ". " (pyStrip text)).map pyStrip).find?
            matchesKeyPhrase = none := by
          rw [hl] at hhead
          exact Option.map_eq_none'.mp hhead.symm
        rw [hf]
      · have hf : (((pySplit ". " (pyStrip text)).map pyStrip).find?
            matchesKeyPhrase).map withPeriod = some k := by
          rw [hl] at hhead
          exact hhead.symm
        obtain ⟨s, hfs, hks⟩ := Option.map_eq_some'.mp hf
        rw [hfs, ← hks]
  · decide

/-- C7: the orchestrator emits exactly one row per architecture identifier
in the union of the two document sets, in strictly ascending identifier
order, and every row has each `*_same` flag equal to 0 or 1 and every
difference field and `reasoning_description` non-empty. -/
theorem C7_rows_invariant (bd ed : DataSet) (brd erd : ReasoningDataSet) :
    List.Sorted (· < ·)
      ((compareAllArchitecturesTabular bd ed brd erd).map (·.architecture_id)) ∧
    (∀ k, k ∈ (compareAllArchitecturesTabular bd ed brd erd).map
        (·.architecture_id) ↔
      (k ∈ bd.architectures.map (·.architecture_id) ∨
       k ∈ ed.architectures.map (·.architecture_id))) ∧
    (compareAllArchitecturesTabular bd ed brd erd).all rowOkB = true := by
  have hids : (compareAllArchitecturesTabular bd ed brd erd).map
      (·.architecture_id) =
      sortStrings ((dkeys (buildArchDict bd.architectures) ++
        dkeys (buildArchDict ed.architectures)).dedup) := by
    unfold compareAllArchitecturesTabular compareAllArchitecturesTabularOrd
    simp only []
    exact map_architecture_id_of_map
      (fun s => createComparisonRowOrd_architecture_id _ _ _ s _ _) _
  refine ⟨?_, ?_, ?_⟩
  · rw [hids]
    exact sortStrings_sorted_lt (List.nodup_dedup _)
  · intro k
    rw [hids, (sortStrings_perm _).mem_iff, List.mem_dedup, List.mem_append,
      mem_dkeys_buildArchDict, mem_dkeys_buildArchDict]
  · rw [List.all_eq_true]
    intro r hr
    unfold compareAllArchitecturesTabular compareAllArchitecturesTabularOrd at hr
    simp only [List.mem_map] at hr
    obtain ⟨archId, _, rfl⟩ := hr
    exact rowOkB_createComparisonRowOrd _ _ _ _ _ _

/-- C8, counterexample: `c8Order1` and `c8Order2` are the two enumerations
of the same two-element component-key set (both deduplicated and covering
exactly the union set the source iterates over); the attributes-level
difference texts they produce are different strings, so two interpreter
runs that enumerate the set differently — which Python's randomized
string hashing permits — print different difference texts for identical
inputs. -/
theorem C8_counterexample :
    List.Perm c8Order1 c8Order2 ∧
    c8Order1.Nodup ∧ c8Order2.Nodup ∧
    setEqB c8Order1 (canonicalUnion (dkeys (getAllAttributes st8B))
      (dkeys (getAllAttributes st8E))) = true ∧
    setEqB c8Order2 (canonicalUnion (dkeys (getAllAttributes st8B))
      (dkeys (getAllAttributes st8E))) = true ∧
    (compareAttributesLevelOrd c8Order1 st8B st8E).differences ≠
      (compareAttributesLevelOrd c8Order2 st8B st8E).differences := by decide

/-- C8, amended: the comparison is deterministic only up to Python's
set-iteration order.  Modeling every set iteration's enumeration order
as an oracle (`SetIterOrders` — the attributes-level component-key
union, the configurations-level component-key and per-component
attribute-name unions, and the reasoning description's `all_services`
and `common_services` iterations), the produced sequence of architecture
identifiers and all four `*_same` flags of every row are independent of
the oracles, hence identical across interpreter runs; the difference
texts and the `reasoning_description` depend on the enumeration orders
and need not be character-identical between runs (the counterexample
exhibits two valid enumerations producing different attributes-level
texts). -/
theorem C8_identifiers_and_flags_run_independent
    (bd ed : DataSet) (brd erd : ReasoningDataSet) (o1 o2 : SetIterOrders) :
    (compareAllArchitecturesTabularOrd o1 bd ed brd erd).map
        (·.architecture_id) =
      (compareAllArchitecturesTabularOrd o2 bd ed brd erd).map
        (·.architecture_id) ∧
    (compareAllArchitecturesTabularOrd o1 bd ed brd erd).map
        (fun r => (r.services_same, r.components_same,
          r.attributes_same, r.configurations_same)) =
      (compareAllArchitecturesTabularOrd o2 bd ed brd erd).map
        (fun r => (r.services_same, r.components_same,
          r.attributes_same, r.configurations_same)) := by
  unfold compareAllArchitecturesTabularOrd
  simp only [List.map_map]
  constructor
  · refine List.map_congr_left ?_
    intro archId _
    simp only [Function.comp]
    exact (createComparisonRowOrd_oracle_invariant o1 o2 _ _ archId _ _).1
  · refine List.map_congr_left ?_
    intro archId _
    obtain ⟨_, h1, h2, h3, h4⟩ :=
      createComparisonRowOrd_oracle_invariant o1 o2
        (createReasoningLookup brd) (createReasoningLookup erd) archId
        (dlookup (buildArchDict bd.architectures) archId)
        (dlookup (buildArchDict ed.architectures) archId)
    simp only [Function.comp]
    rw [h1, h2, h3, h4]

/-- C9: on `stB` (service `S` with component `c_X` carrying no attributes)
versus the empty structure `stE`, the attributes-level differencer
returns `same = False` — the two top-level existence maps have different
key sets — while its difference text is the literal `"No differences"`,
because the single component key's attribute-name sets are both empty, so
no per-component entry is emitted. -/
theorem C9_same_false_no_differences :
    extractArchitectureStructure (some stBDoc) = stB ∧
    extractArchitectureStructure (some stEDoc) = stE ∧
    (compareAttributesLevel stB stE).same = false ∧
    (compareAttributesLevel stB stE).differences = "No differences" := by
  decide

/-- C10: the rationale extractor ignores its context label — the result
depends only on the text argument. -/
theorem C10_context_irrelevant (text c1 c2 : String) :
    extractKeyInsight text c1 = extractKeyInsight text c2 := rfl

end ArchCompare
